import Mathlib

/-!
Verification development for the cpupower-gui qt port.

The definitions below are a shallow embedding of the privileged helper
service (`helperservice.cpp`), the client-side operation scheduler
(`dbushelper.cpp`) and the per-unit settings controller
(`cpusettings.cpp`).  Qt strings are modelled as `List Char` where the
parsing behaviour matters and as Lean `String` where the payload is
opaque.  File-system effects are made explicit: every mutating helper
method returns the list of kernel control-file writes it performs next
to its integer status code.
-/

namespace Cpupower

/- ===================================================================
   Qt string primitives, modelled over lists of characters.
   `qtTrim` models `QString::trimmed`, `splitOnChar` models
   `QString::split(sep)` with `KeepEmptyParts`, `qtToInt` models
   `QString::toInt` (whole-string parse, optional sign, surrounding
   whitespace tolerated, 0 on failure or 32-bit overflow).
   =================================================================== -/

def qtTrim (cs : List Char) : List Char :=
  ((cs.dropWhile Char.isWhitespace).reverse.dropWhile Char.isWhitespace).reverse

def splitOnChar (sep : Char) : List Char → List (List Char)
  | [] => [[]]
  | c :: rest =>
    let r := splitOnChar sep rest
    if c = sep then [] :: r
    else
      match r with
      | [] => [[c]]
      | h :: t => (c :: h) :: t

def digitsToNat (cs : List Char) : Option Nat :=
  if cs ≠ [] ∧ cs.all Char.isDigit then
    some (cs.foldl (fun acc c => acc * 10 + (c.toNat - 48)) 0)
  else none

def qtToInt (cs : List Char) : Int :=
  let t := qtTrim cs
  let signAndDigits : Int × List Char :=
    match t with
    | '-' :: rest => (-1, rest)
    | '+' :: rest => (1, rest)
    | _ => (1, t)
  match digitsToNat signAndDigits.2 with
  | none => 0
  | some n =>
    let v : Int := signAndDigits.1 * (n : Int)
    if v < -(2 ^ 31) ∨ 2 ^ 31 - 1 < v then 0 else v

/-- The loop `for (int i = start; i <= end; ++i) result.append(i)` from
`HelperService::parseCpuList`. -/
def intRange (start stop : Int) : List Int :=
  (List.range (stop + 1 - start).toNat).map (fun i => start + (i : Int))

/-- Body of the per-part loop in `HelperService::parseCpuList`: a part
containing a dash is split on the dash and expanded when it has exactly
two pieces, any other dashed part contributes nothing, and a plain part
contributes its `toInt` value. -/
def parsePart (part : List Char) : List Int :=
  if part.contains '-' then
    match splitOnChar '-' part with
    | [a, b] => intRange (qtToInt a) (qtToInt b)
    | _ => []
  else [qtToInt part]

/-- `HelperService::parseCpuList`: trim, split on commas skipping empty
parts, expand each part. -/
def parseCpuList (content : List Char) : List Int :=
  let trimmed := qtTrim content
  if trimmed = [] then []
  else (((splitOnChar ',' trimmed).filter (fun p => p ≠ [])).map parsePart).flatten

/- ===================================================================
   Authorization gate: `HelperService::checkPolkitAuthorization`.
   The PolicyKit round trip is modelled by a `PolkitReply` oracle; the
   decision cache `m_authorizedSenders : QMap<QString,bool>` is an
   association list where insertion prepends (newest binding wins on
   lookup, matching `QMap::operator[]` assignment observationally).
   =================================================================== -/

inductive PolkitReply
  | errorReply (msg : String)
  | emptyReply
  | result (isAuth isChallenge : Bool)
deriving DecidableEq

def cacheInsert (cache : List (String × Bool)) (k : String) (v : Bool) :
    List (String × Bool) :=
  (k, v) :: cache

/-- `HelperService::checkPolkitAuthorization(sender, actionId)`.
Returns `(decision, new cache state, whether PolicyKit was consulted)`.
Cache hit short-circuits; transport errors and empty replies yield
`false`; a parsed reply is cached only when
`isAuthorized && !isChallenge`. -/
def checkPolkitAuthorization (cache : List (String × Bool))
    (sender actionId : String) (reply : PolkitReply) :
    Bool × List (String × Bool) × Bool :=
  let cacheKey := sender ++ actionId
  match cache.lookup cacheKey with
  | some cached => (cached, cache, false)
  | none =>
    match reply with
    | .errorReply _ => (false, cache, true)
    | .emptyReply => (false, cache, true)
    | .result a c =>
      (a, if a && !c then cacheInsert cache cacheKey true else cache, true)

/- ===================================================================
   Ordered mutation engine: the mutating slots of `HelperService`.
   Each model takes the authorization decision and the present/online
   status as booleans (the code computes them via `isAuthorized()`,
   `isPresent`, `isOnline`), plus oracles for file existence and write
   success, and returns `(status code, attempted control-file writes)`.
   =================================================================== -/

inductive FreqField
  | fmin
  | fmax
deriving DecidableEq

/-- The write-order decision inside `HelperService::update_cpu_settings`:
if the new max is below the current min, lower the min first; if the new
min is above the current max, raise the max first; otherwise the
standard order (min then max). -/
def chooseWriteSequence (curMin curMax freq_min freq_max : Int) :
    List (FreqField × Int) :=
  if freq_max < curMin then
    [(FreqField.fmin, freq_min), (FreqField.fmax, freq_max)]
  else if freq_min > curMax then
    [(FreqField.fmax, freq_max), (FreqField.fmin, freq_min)]
  else
    [(FreqField.fmin, freq_min), (FreqField.fmax, freq_max)]

def applyFreqWrite (s : Int × Int) (w : FreqField × Int) : Int × Int :=
  match w.1 with
  | FreqField.fmin => (w.2, s.2)
  | FreqField.fmax => (s.1, w.2)

/-- The sequence of `(scaling_min, scaling_max)` states observable after
each successive write of a write sequence, starting from state `s`. -/
def writeTrace (s : Int × Int) : List (FreqField × Int) → List (Int × Int)
  | [] => []
  | w :: ws => applyFreqWrite s w :: writeTrace (applyFreqWrite s w) ws

/-- `HelperService::update_cpu_settings(cpu, freq_min, freq_max)`.
Both writes of the chosen sequence are attempted even if the first
fails (the code accumulates `success` instead of returning early);
status is 0 when every write succeeded, otherwise -13. -/
def update_cpu_settings (authorized presentCpu onlineCpu : Bool)
    (curMin curMax freq_min freq_max : Int) (writeOk : FreqField → Bool) :
    Int × List (FreqField × Int) :=
  if !authorized then (-1, [])
  else if !(presentCpu && onlineCpu) then (-1, [])
  else
    let writes := chooseWriteSequence curMin curMax freq_min freq_max
    (if writes.all (fun w => writeOk w.1) then 0 else -13, writes)

/-- `HelperService::update_cpu_governor(cpu, governor)`. -/
def update_cpu_governor (authorized presentCpu onlineCpu : Bool)
    (governor : String) (writeOk : Bool) : Int × List String :=
  if !authorized then (-1, [])
  else if !(presentCpu && onlineCpu) then (-1, [])
  else if writeOk then (0, [governor]) else (-13, [governor])

/-- `HelperService::update_cpu_energy_prefs(cpu, pref)`: an unsupported
preference or a missing control file is a success-valued no-op. -/
def update_cpu_energy_prefs (authorized presentCpu onlineCpu : Bool)
    (available : List String) (pref : String) (fileExists writeOk : Bool) :
    Int × List String :=
  if !authorized then (-1, [])
  else if !(presentCpu && onlineCpu) then (-1, [])
  else if !(available.contains pref) then (0, [])
  else if !fileExists then (0, [])
  else if writeOk then (0, [pref]) else (-13, [pref])

/-- `HelperService::set_cpu_online(cpu)`: a missing `online` control
file yields -1. -/
def set_cpu_online (authorized : Bool) (fileExists writeOk : Bool) :
    Int × List String :=
  if !authorized then (-1, [])
  else if !fileExists then (-1, [])
  else if writeOk then (0, ["1"]) else (-13, ["1"])

/-- `HelperService::set_cpu_offline(cpu)`. -/
def set_cpu_offline (authorized : Bool) (fileExists writeOk : Bool) :
    Int × List String :=
  if !authorized then (-1, [])
  else if !fileExists then (-1, [])
  else if writeOk then (0, ["0"]) else (-13, ["0"])

/- ===================================================================
   Per-unit settings controller: `CpuSettings` (cpusettings.cpp).
   Only the five tracked fields and the flags consulted by
   `applyChanges` are modelled; the D-Bus results and the post-apply
   system snapshot are oracles.
   =================================================================== -/

structure SystemSnapshot where
  freqMin : Int
  freqMax : Int
  governor : String
  energyPref : String
  online : Bool
deriving DecidableEq

structure CpuSettingsState where
  origFreqMin : Int
  origFreqMax : Int
  origGovernor : String
  origEnergyPref : String
  origOnline : Bool
  newFreqMin : Int
  newFreqMax : Int
  newGovernor : String
  newEnergyPref : String
  newOnline : Bool
  canGoOffline : Bool
  energyPrefAvailable : Bool
deriving DecidableEq

/-- `CpuSettings::updateFromSystem`: re-read the original values from
the system and reset the pending values to them. -/
def updateFromSystem (sys : SystemSnapshot) (st : CpuSettingsState) :
    CpuSettingsState :=
  { st with
    origFreqMin := sys.freqMin, origFreqMax := sys.freqMax,
    origGovernor := sys.governor, origEnergyPref := sys.energyPref,
    origOnline := sys.online,
    newFreqMin := sys.freqMin, newFreqMax := sys.freqMax,
    newGovernor := sys.governor, newEnergyPref := sys.energyPref,
    newOnline := sys.online }

/-- `CpuSettings::resetToSystem`: discard pending values. -/
def resetToSystem (st : CpuSettingsState) : CpuSettingsState :=
  { st with
    newFreqMin := st.origFreqMin, newFreqMax := st.origFreqMax,
    newGovernor := st.origGovernor, newEnergyPref := st.origEnergyPref,
    newOnline := st.origOnline }

def CpuSettingsState.isFreqChanged (st : CpuSettingsState) : Bool :=
  st.newFreqMin != st.origFreqMin || st.newFreqMax != st.origFreqMax

def CpuSettingsState.isGovernorChanged (st : CpuSettingsState) : Bool :=
  st.newGovernor != st.origGovernor

def CpuSettingsState.isEnergyPrefChanged (st : CpuSettingsState) : Bool :=
  st.newEnergyPref != st.origEnergyPref

def CpuSettingsState.isOnlineChanged (st : CpuSettingsState) : Bool :=
  st.newOnline != st.origOnline

def CpuSettingsState.isChanged (st : CpuSettingsState) : Bool :=
  st.isFreqChanged || st.isGovernorChanged || st.isEnergyPrefChanged ||
    st.isOnlineChanged

/-- Result codes returned by the five `DbusHelper` calls that
`CpuSettings::applyChanges` may issue. -/
structure DbusResults where
  setOnline : Int
  setOffline : Int
  updateSettings : Int
  updateGovernor : Int
  updateEnergyPrefs : Int
deriving DecidableEq

/-- The value held by `ret` after the online/offline block of
`CpuSettings::applyChanges`. -/
def onlineApplyResult (st : CpuSettingsState) (r : DbusResults) : Int :=
  if st.isOnlineChanged then
    (if st.newOnline then r.setOnline
     else if st.canGoOffline then r.setOffline
     else 0)
  else 0

/-- `CpuSettings::applyChanges`, flattened: apply the online change
first and stop on its failure; when online, apply frequency bounds,
governor and energy preference in turn, each failure returning its
dedicated code; `updateFromSystem` runs only on the final success path.
Returns `(status, resulting state, whether updateFromSystem ran)`. -/
def applyChanges (st : CpuSettingsState) (r : DbusResults)
    (sys : SystemSnapshot) : Int × CpuSettingsState × Bool :=
  if st.isOnlineChanged && (onlineApplyResult st r != 0) then
    (onlineApplyResult st r, st, false)
  else if st.newOnline && st.isFreqChanged && (r.updateSettings != 0) then
    (-13, st, false)
  else if st.newOnline && st.isGovernorChanged && (r.updateGovernor != 0) then
    (-11, st, false)
  else if st.newOnline && st.isEnergyPrefChanged && st.energyPrefAvailable
      && (r.updateEnergyPrefs != 0) then
    (-12, st, false)
  else
    (0, updateFromSystem sys st, true)

/- ===================================================================
   Operation scheduler: the queue/batch machinery of `DbusHelper`
   (dbushelper.cpp).  Asynchronous completion is modelled by making the
   issued-but-unfinished call explicit in `pending`; the surrounding
   event loop is a list of `SchedAction`s, and the Qt signals plus the
   dequeue points form the observable `SchedEvent` trace.
   =================================================================== -/

structure QueuedOperation where
  method : String
  args : List String
  description : String
deriving DecidableEq

/-- Result of an issued asynchronous D-Bus call: a transport-level
error, or a reply carrying an integer result code. -/
inductive CallOutcome
  | transportError (msg : String)
  | resultCode (code : Int)
deriving DecidableEq

inductive SchedEvent
  | opDispatched (op : QueuedOperation)
  | opFailed (error : String)
  | opSucceeded
  | progressChanged (b : Bool)
  | batchCompleted (allSucceeded : Bool) (errors : List String)
deriving DecidableEq

structure DbusHelperState where
  queue : List QueuedOperation
  pending : List QueuedOperation
  opInProgress : Bool
  batchMode : Bool
  batchErrors : List String
  batchHadErrors : Bool
  connected : Bool
deriving DecidableEq

/-- `DbusHelper::setOperationInProgress`: emits
`operationInProgressChanged` only on an actual change. -/
def setOperationInProgress (st : DbusHelperState) (b : Bool) :
    DbusHelperState × List SchedEvent :=
  if st.opInProgress = b then (st, [])
  else ({ st with opInProgress := b }, [SchedEvent.progressChanged b])

def notConnRaw : String := "Not connected to D-Bus service"

/-- `DbusHelper::processNextOperation`, with the queue as the explicit
recursion argument (the caller passes `st.queue`).  An empty queue ends
processing and, in batch mode, emits the single `batchCompleted`
signal; a dequeued operation is either issued asynchronously (appended
to `pending`) when connected, or recorded as an immediate failure and
processing continues. -/
def processNextAux : List QueuedOperation → DbusHelperState →
    DbusHelperState × List SchedEvent
  | [], st =>
    let p := setOperationInProgress st false
    if p.1.batchMode then
      ({ p.1 with batchMode := false, batchErrors := [],
                  batchHadErrors := false },
       p.2 ++ [SchedEvent.batchCompleted (!p.1.batchHadErrors) p.1.batchErrors])
    else p
  | op :: rest, st =>
    let p := setOperationInProgress st true
    if p.1.connected then
      ({ p.1 with queue := rest, pending := p.1.pending ++ [op] },
       p.2 ++ [SchedEvent.opDispatched op])
    else
      let st2 := { p.1 with
        queue := rest, batchHadErrors := true,
        batchErrors :=
          p.1.batchErrors ++ [op.description ++ ": " ++ notConnRaw] }
      let q := processNextAux rest st2
      (q.1, p.2 ++ [SchedEvent.opDispatched op, SchedEvent.opFailed notConnRaw]
            ++ q.2)

def processNextOperation (st : DbusHelperState) :
    DbusHelperState × List SchedEvent :=
  processNextAux st.queue st

/-- The error message carried by a finished asynchronous call, per
`DbusHelper::onAsyncCallFinished`: the transport error message, or
`"Operation failed with code N"` for a non-zero result code, or none
for result code 0. -/
def rawError : CallOutcome → Option String
  | .transportError e => some e
  | .resultCode code =>
    if code = 0 then none
    else some ("Operation failed with code " ++ toString code)

/-- `DbusHelper::onAsyncCallFinished`: consume the oldest pending call,
record its outcome (the batch failure list receives
`description: error`), then continue with the next queued operation. -/
def onAsyncCallFinished (st : DbusHelperState) (o : CallOutcome) :
    DbusHelperState × List SchedEvent :=
  match st.pending with
  | [] => (st, [])
  | op :: restPending =>
    match rawError o with
    | some err =>
      let st1 := { st with
        pending := restPending, batchHadErrors := true,
        batchErrors := st.batchErrors ++ [op.description ++ ": " ++ err] }
      let q := processNextOperation st1
      (q.1, SchedEvent.opFailed err :: q.2)
    | none =>
      let st1 := { st with pending := restPending }
      let q := processNextOperation st1
      (q.1, SchedEvent.opSucceeded :: q.2)

/-- `DbusHelper::queueOperation`: enqueue, and start processing only
when nothing is in flight and no batch is open. -/
def queueOperation (st : DbusHelperState) (op : QueuedOperation) :
    DbusHelperState × List SchedEvent :=
  let st1 := { st with queue := st.queue ++ [op] }
  if !st1.opInProgress && !st1.batchMode then processNextOperation st1
  else (st1, [])

/-- `DbusHelper::beginBatch`. -/
def beginBatch (st : DbusHelperState) : DbusHelperState :=
  { st with batchMode := true, batchErrors := [], batchHadErrors := false }

/-- `DbusHelper::endBatch`: an empty idle queue completes the batch
immediately with `(true, [])`, otherwise draining starts unless a call
is already in flight. -/
def endBatch (st : DbusHelperState) : DbusHelperState × List SchedEvent :=
  if st.queue.isEmpty && !st.opInProgress then
    ({ st with batchMode := false }, [SchedEvent.batchCompleted true []])
  else if !st.opInProgress then processNextOperation st
  else (st, [])

/-- External stimuli driving a `DbusHelper`: client calls plus the
delivery of one asynchronous completion. -/
inductive SchedAction
  | enqueue (op : QueuedOperation)
  | beginB
  | endB
  | complete (o : CallOutcome)

def stepAction (st : DbusHelperState) : SchedAction →
    DbusHelperState × List SchedEvent
  | .enqueue op => queueOperation st op
  | .beginB => (beginBatch st, [])
  | .endB => endBatch st
  | .complete o => onAsyncCallFinished st o

def runActions (st : DbusHelperState) :
    List SchedAction → DbusHelperState × List SchedEvent
  | [] => (st, [])
  | a :: rest =>
    let p := stepAction st a
    let q := runActions p.1 rest
    (q.1, p.2 ++ q.2)

/-- A freshly constructed `DbusHelper` (empty queue, nothing in flight,
no batch open). -/
def initState (connected : Bool) : DbusHelperState :=
  { queue := [], pending := [], opInProgress := false, batchMode := false,
    batchErrors := [], batchHadErrors := false, connected := connected }

/-- The action sequence of one batch: open it, enqueue the operations,
close it, then deliver the asynchronous completions. -/
def batchActions (ops : List QueuedOperation) (outcomes : List CallOutcome) :
    List SchedAction :=
  SchedAction.beginB :: (ops.map SchedAction.enqueue ++
    (SchedAction.endB :: outcomes.map SchedAction.complete))

def enqueuedOps : List SchedAction → List QueuedOperation
  | [] => []
  | .enqueue op :: rest => op :: enqueuedOps rest
  | _ :: rest => enqueuedOps rest

def dispatchedOps : List SchedEvent → List QueuedOperation
  | [] => []
  | .opDispatched op :: rest => op :: dispatchedOps rest
  | _ :: rest => dispatchedOps rest

/-- Batch failure-list entry for an operation that was due while the
helper endpoint was not connected. -/
def notConnErr (op : QueuedOperation) : String :=
  op.description ++ ": " ++ notConnRaw

/-- Trace produced when a disconnected scheduler drains its queue. -/
def discEvents : List QueuedOperation → List SchedEvent
  | [] => []
  | op :: rest =>
    SchedEvent.opDispatched op :: SchedEvent.opFailed notConnRaw ::
      discEvents rest

def completionEvents (o : CallOutcome) : List SchedEvent :=
  match rawError o with
  | some e => [SchedEvent.opFailed e]
  | none => [SchedEvent.opSucceeded]

/-- Trace produced while a connected scheduler consumes completions:
each finished call's completion signal, followed by the dispatch of the
next queued operation. -/
def connEvents : List QueuedOperation → List CallOutcome → List SchedEvent
  | [], _ => []
  | _ :: _, [] => []
  | _ :: rest, o :: os =>
    completionEvents o ++
      (match rest with
       | [] => []
       | op2 :: _ => [SchedEvent.opDispatched op2]) ++
      connEvents rest os

/-- The batch failure entries accumulated for a list of operations with
their outcomes. -/
def errsOf : List QueuedOperation → List CallOutcome → List String
  | [], _ => []
  | _, [] => []
  | op :: l, o :: os =>
    match rawError o with
    | some e => (op.description ++ ": " ++ e) :: errsOf l os
    | none => errsOf l os

/-- The failure list a batch over `ops` ends with. -/
def batchErrorList (connected : Bool) (ops : List QueuedOperation)
    (outcomes : List CallOutcome) : List String :=
  if connected then errsOf ops outcomes else ops.map notConnErr

def isFailure (o : CallOutcome) : Bool := (rawError o).isSome

/-- Number of operations of the batch that fail. -/
def failedCount (connected : Bool) (ops : List QueuedOperation)
    (outcomes : List CallOutcome) : Nat :=
  if connected then outcomes.countP isFailure else ops.length

def isBatchEvent : SchedEvent → Bool
  | .batchCompleted _ _ => true
  | _ => false

def isCompletionEvent : SchedEvent → Bool
  | .opFailed _ => true
  | .opSucceeded => true
  | _ => false

def countBatch (evs : List SchedEvent) : Nat := evs.countP isBatchEvent

def countCompletions (evs : List SchedEvent) : Nat :=
  evs.countP isCompletionEvent

/-- Serialization invariant of the scheduler state: at most one
asynchronous call is outstanding, and none while `m_operationInProgress`
is clear. -/
def SchedInv (st : DbusHelperState) : Prop :=
  st.pending.length ≤ 1 ∧ (st.opInProgress = false → st.pending = [])

end Cpupower

namespace Cpupower


/- Concrete fixtures exercising `applyChanges`. -/

/-- A per-unit state whose only pending edit raises the minimum
frequency from 800 MHz to 1 GHz. -/
def sampleSettings : CpuSettingsState :=
  { origFreqMin := 800000, origFreqMax := 2000000,
    origGovernor := "powersave", origEnergyPref := "balance_performance",
    origOnline := true,
    newFreqMin := 1000000, newFreqMax := 2000000,
    newGovernor := "powersave", newEnergyPref := "balance_performance",
    newOnline := true, canGoOffline := true, energyPrefAvailable := true }

/-- The post-apply system snapshot used when `updateFromSystem` runs. -/
def sampleSystem : SystemSnapshot :=
  { freqMin := 1000000, freqMax := 2000000, governor := "powersave",
    energyPref := "balance_performance", online := true }

/-- D-Bus results where the frequency update fails. -/
def failingResults : DbusResults :=
  { setOnline := 0, setOffline := 0, updateSettings := -1,
    updateGovernor := 0, updateEnergyPrefs := 0 }

/-- D-Bus results where every call succeeds. -/
def okResults : DbusResults :=
  { setOnline := 0, setOffline := 0, updateSettings := 0,
    updateGovernor := 0, updateEnergyPrefs := 0 }

/- ===================================================================
   Theorems.
   =================================================================== -/

/-- Claim C1: for a present, online CPU and an authorized request with
`new_min ≤ new_max`, `update_cpu_settings` writes min first then max
when `new_max < cur_min`, max first then min when `new_min > cur_max`,
and min then max otherwise; and starting from a valid current state,
every state observable after an individual write of the chosen sequence
satisfies `min ≤ max`. -/
theorem update_cpu_settings_write_order
    (curMin curMax newMin newMax : Int) (writeOk : FreqField → Bool)
    (hcur : curMin ≤ curMax) (hnew : newMin ≤ newMax) :
    (newMax < curMin →
      (update_cpu_settings true true true curMin curMax newMin newMax writeOk).2
        = [(FreqField.fmin, newMin), (FreqField.fmax, newMax)]) ∧
    (newMin > curMax →
      (update_cpu_settings true true true curMin curMax newMin newMax writeOk).2
        = [(FreqField.fmax, newMax), (FreqField.fmin, newMin)]) ∧
    (¬ newMax < curMin → ¬ newMin > curMax →
      (update_cpu_settings true true true curMin curMax newMin newMax writeOk).2
        = [(FreqField.fmin, newMin), (FreqField.fmax, newMax)]) ∧
    (∀ s ∈ writeTrace (curMin, curMax)
        (update_cpu_settings true true true curMin curMax newMin newMax writeOk).2,
      s.1 ≤ s.2) := by
  have hw : (update_cpu_settings true true true curMin curMax newMin newMax
      writeOk).2 = chooseWriteSequence curMin curMax newMin newMax := by
    simp [update_cpu_settings]
  rw [hw]
  refine ⟨fun h1 => ?_, fun h2 => ?_, fun h1 h2 => ?_, ?_⟩
  · simp [chooseWriteSequence, h1]
  · have h1 : ¬ newMax < curMin := by omega
    simp [chooseWriteSequence, h1, h2]
  · simp [chooseWriteSequence, h1, h2]
  · by_cases h1 : newMax < curMin
    · simp only [chooseWriteSequence, if_pos h1]
      simp [writeTrace, applyFreqWrite]
      omega
    · by_cases h2 : newMin > curMax
      · simp only [chooseWriteSequence, if_neg h1, if_pos h2]
        simp [writeTrace, applyFreqWrite]
        omega
      · simp only [chooseWriteSequence, if_neg h1, if_neg h2]
        simp [writeTrace, applyFreqWrite]
        omega

/-- Witness for C1 at the spec's own scenario: current bounds
(800000, 2000000), request (2200000, 2500000); the max is written
first, and all intermediate states keep `min ≤ max`. -/
theorem update_cpu_settings_write_order_witness :
    (update_cpu_settings true true true 800000 2000000 2200000 2500000
        (fun _ => true)).2
      = [(FreqField.fmax, 2500000), (FreqField.fmin, 2200000)] ∧
    (∀ s ∈ writeTrace (800000, 2000000)
        (update_cpu_settings true true true 800000 2000000 2200000 2500000
          (fun _ => true)).2,
      s.1 ≤ s.2) :=
  ⟨(update_cpu_settings_write_order 800000 2000000 2200000 2500000
      (fun _ => true) (by decide) (by decide)).2.1 (by decide),
   (update_cpu_settings_write_order 800000 2000000 2200000 2500000
      (fun _ => true) (by decide) (by decide)).2.2.2⟩

/-- Claim C3: every mutating helper operation, when the authorization
gate denies the caller, returns -1 and attempts no kernel control-file
write of any kind. -/
theorem mutations_denied_no_writes
    (presentCpu onlineCpu : Bool) (curMin curMax newMin newMax : Int)
    (writeOk : FreqField → Bool) (governor : String) (govOk : Bool)
    (available : List String) (pref : String) (fileExists prefOk : Bool) :
    update_cpu_settings false presentCpu onlineCpu curMin curMax newMin
        newMax writeOk = (-1, []) ∧
    update_cpu_governor false presentCpu onlineCpu governor govOk = (-1, []) ∧
    update_cpu_energy_prefs false presentCpu onlineCpu available pref
        fileExists prefOk = (-1, []) ∧
    set_cpu_online false fileExists prefOk = (-1, []) ∧
    set_cpu_offline false fileExists prefOk = (-1, []) :=
  ⟨rfl, rfl, rfl, rfl, rfl⟩

/-- Claim C8: for a present, online CPU and an authorized call,
`update_cpu_energy_prefs` with a preference outside the supported set,
or with a missing control file, returns 0 and performs no write. -/
theorem energy_prefs_unsupported_noop
    (available : List String) (pref : String) (fileExists writeOk : Bool)
    (h : available.contains pref = false ∨ fileExists = false) :
    update_cpu_energy_prefs true true true available pref fileExists writeOk
      = (0, []) := by
  rcases h with h | h
  · unfold update_cpu_energy_prefs
    rw [h]
    rfl
  · by_cases hc : available.contains pref = true
    · unfold update_cpu_energy_prefs
      rw [h, hc]
      rfl
    · have hc2 : available.contains pref = false := by simpa using hc
      unfold update_cpu_energy_prefs
      rw [hc2]
      rfl

/-- Witness for C8: the spec's scenario, a preference `"bogus"` outside
the supported set. -/
theorem energy_prefs_unsupported_noop_witness :
    update_cpu_energy_prefs true true true ["default", "performance"]
      "bogus" true true = (0, []) :=
  energy_prefs_unsupported_noop ["default", "performance"] "bogus" true true
    (Or.inl (by decide))

/-- Claim C2: `checkPolkitAuthorization` changes its decision cache only
when the authority reply is `is_authorized = true` and
`is_challenge = false` (a challenge reply is never cached); and once a
decision for a `(caller, action)` pair is cached, every subsequent call
returns the cached boolean without issuing another policy-authority
call. -/
theorem checkPolkit_cache_discipline :
    (∀ (cache : List (String × Bool)) (sender actionId : String)
        (reply : PolkitReply),
      (checkPolkitAuthorization cache sender actionId reply).2.1 ≠ cache →
        reply = PolkitReply.result true false ∧
        (checkPolkitAuthorization cache sender actionId reply).2.1
          = cacheInsert cache (sender ++ actionId) true) ∧
    (∀ (cache : List (String × Bool)) (sender actionId : String)
        (reply : PolkitReply) (v : Bool),
      cache.lookup (sender ++ actionId) = some v →
        checkPolkitAuthorization cache sender actionId reply
          = (v, cache, false)) := by
  constructor
  · intro cache sender actionId reply hne
    unfold checkPolkitAuthorization at hne ⊢
    cases hl : cache.lookup (sender ++ actionId) with
    | some cached => simp [hl] at hne
    | none =>
      simp only [hl] at hne ⊢
      cases reply with
      | errorReply msg => simp at hne
      | emptyReply => simp at hne
      | result a c =>
        simp only at hne ⊢
        by_cases hac : (a && !c) = true
        · have ha : a = true := by
            cases a <;> simp_all
          have hc : c = false := by
            cases c <;> simp_all
          subst ha; subst hc
          simp
        · have hac2 : (a && !c) = false := by simpa using hac
          simp [hac2] at hne
  · intro cache sender actionId reply v hl
    unfold checkPolkitAuthorization
    simp [hl]

/-- Witness for C2: a fresh cache is extended exactly on an
authorized, non-challenge reply, and a cached pair short-circuits. -/
theorem checkPolkit_cache_discipline_witness :
    (PolkitReply.result true false = PolkitReply.result true false ∧
      (checkPolkitAuthorization [] "caller" "action"
          (PolkitReply.result true false)).2.1
        = cacheInsert [] ("caller" ++ "action") true) ∧
    checkPolkitAuthorization [("calleraction", true)] "caller" "action"
        PolkitReply.emptyReply
      = (true, [("calleraction", true)], false) :=
  ⟨checkPolkit_cache_discipline.1 [] "caller" "action"
      (PolkitReply.result true false) (by decide),
   checkPolkit_cache_discipline.2 [("calleraction", true)] "caller" "action"
      PolkitReply.emptyReply true (by decide)⟩

/-- Claim C4: on a cache miss, a transport-level error reply or an
empty reply from the policy authority makes `checkPolkitAuthorization`
return false (fail-closed), never true by default. -/
theorem checkPolkit_fail_closed
    (cache : List (String × Bool)) (sender actionId : String)
    (h : cache.lookup (sender ++ actionId) = none) :
    (∀ msg, checkPolkitAuthorization cache sender actionId
        (PolkitReply.errorReply msg) = (false, cache, true)) ∧
    checkPolkitAuthorization cache sender actionId PolkitReply.emptyReply
      = (false, cache, true) := by
  refine ⟨fun msg => ?_, ?_⟩ <;>
    · unfold checkPolkitAuthorization
      simp [h]

/-- Witness for C4: an empty cache, both failure shapes. -/
theorem checkPolkit_fail_closed_witness :
    checkPolkitAuthorization [] "caller" "action"
        (PolkitReply.errorReply "timeout") = (false, [], true) ∧
    checkPolkitAuthorization [] "caller" "action" PolkitReply.emptyReply
      = (false, [], true) :=
  ⟨(checkPolkit_fail_closed [] "caller" "action" (by decide)).1 "timeout",
   (checkPolkit_fail_closed [] "caller" "action" (by decide)).2⟩

/-- Claim C9: immediately after `updateFromSystem` or `resetToSystem`,
every pending field (frequency bounds, governor, energy preference,
online state) equals its original, so `isChanged` is false. -/
theorem refresh_clears_changed (sys : SystemSnapshot)
    (st : CpuSettingsState) :
    (updateFromSystem sys st).isChanged = false ∧
    (resetToSystem st).isChanged = false := by
  constructor <;>
    simp [updateFromSystem, resetToSystem, CpuSettingsState.isChanged,
      CpuSettingsState.isFreqChanged, CpuSettingsState.isGovernorChanged,
      CpuSettingsState.isEnergyPrefChanged, CpuSettingsState.isOnlineChanged]


/-- Claim C7 counterexample: with a pending frequency edit and a
failing `update_cpu_settings` call, `applyChanges` returns -13 without
running `updateFromSystem`: the state is returned unchanged and the
refresh flag is false, refuting "refreshes the original values
regardless of outcome". -/
theorem applyChanges_no_refresh_on_failure :
    applyChanges sampleSettings failingResults sampleSystem
      = (-13, sampleSettings, false) ∧
    sampleSettings.isChanged = true := by
  constructor <;> rfl

/-- Claim C7 (amended): `applyChanges` refreshes the original values
from the system exactly when the whole apply sequence succeeds
(returns 0); on any failing step it returns that step's error code
early and leaves the state — and hence `isChanged` — untouched. -/
theorem applyChanges_refresh_iff_success
    (st : CpuSettingsState) (r : DbusResults) (sys : SystemSnapshot) :
    ((applyChanges st r sys).2.2 = true ↔ (applyChanges st r sys).1 = 0) ∧
    ((applyChanges st r sys).1 = 0 →
      (applyChanges st r sys).2.1 = updateFromSystem sys st) ∧
    ((applyChanges st r sys).1 ≠ 0 → (applyChanges st r sys).2.1 = st) := by
  unfold applyChanges
  split_ifs with h1 h2 h3 h4
  · have hret : onlineApplyResult st r ≠ 0 := by
      simp only [Bool.and_eq_true, bne_iff_ne] at h1
      exact h1.2
    simp [hret]
  · refine ⟨by simp, ?_, fun _ => rfl⟩
    intro h0
    simp at h0
  · refine ⟨by simp, ?_, fun _ => rfl⟩
    intro h0
    simp at h0
  · refine ⟨by simp, ?_, fun _ => rfl⟩
    intro h0
    simp at h0
  · simp

/-- Witness for the amended C7: a fully successful apply returns 0 and
the refreshed state. -/
theorem applyChanges_refresh_iff_success_witness :
    (applyChanges sampleSettings okResults sampleSystem).2.1
      = updateFromSystem sampleSystem sampleSettings ∧
    ((applyChanges sampleSettings okResults sampleSystem).2.2 = true ↔
      (applyChanges sampleSettings okResults sampleSystem).1 = 0) :=
  ⟨(applyChanges_refresh_iff_success sampleSettings okResults
      sampleSystem).2.1 (by decide),
   (applyChanges_refresh_iff_success sampleSettings okResults
      sampleSystem).1⟩


/-- Skipping the empty comma-parts before expansion is the same as
letting each empty part contribute nothing. -/
theorem filter_empty_parts_eq (l : List (List Char)) :
    (((l.filter (fun p => p ≠ [])).map parsePart)).flatten
      = ((l.map (fun p => if p = [] then [] else parsePart p))).flatten := by
  induction l with
  | nil => rfl
  | cons p t ih =>
    by_cases hp : p = []
    · subst hp
      simpa using ih
    · simp only [ne_eq, decide_not] at ih
      simp [hp, ih]

/-- Claim C10: `parseCpuList` totally maps any input to a list of
integers: a dashed part that does not split into exactly two pieces
contributes nothing, a dash range whose start exceeds its end
contributes nothing, empty comma-parts are skipped, a dash-free part
contributes exactly its `toInt` value, and non-numeric parts contribute
0. -/
theorem parseCpuList_robust :
    (∀ part, part.contains '-' = true →
      (splitOnChar '-' part).length ≠ 2 → parsePart part = []) ∧
    (∀ part a b, part.contains '-' = true → splitOnChar '-' part = [a, b] →
      qtToInt b < qtToInt a → parsePart part = []) ∧
    (∀ content, parseCpuList content
      = ((splitOnChar ',' (qtTrim content)).map
          (fun p => if p = [] then [] else parsePart p)).flatten) ∧
    (∀ part, part.contains '-' = false → parsePart part = [qtToInt part]) ∧
    parsePart ['a', 'b', 'c'] = [0] ∧ parsePart ['1', '2', 'a'] = [0] := by
  refine ⟨?_, ?_, ?_, ?_, by decide, by decide⟩
  · intro part h h2
    unfold parsePart
    rw [h]
    rcases hs : splitOnChar '-' part with _ | ⟨a, _ | ⟨b, _ | ⟨c, t⟩⟩⟩
    · rfl
    · rfl
    · exact absurd (by rw [hs]; rfl) h2
    · rfl
  · intro part a b h hs hlt
    have hm : '-' ∈ part := by simpa using h
    have hz : (qtToInt b + 1 - qtToInt a).toNat = 0 := by omega
    simp [parsePart, h, hs, intRange, hz, hm]
  · intro content
    unfold parseCpuList
    by_cases ht : qtTrim content = []
    · rw [ht]
      rfl
    · simp only [ht, if_neg]
      exact filter_empty_parts_eq _
  · intro part h
    unfold parsePart
    rw [h]
    rfl

/-- Witness for C10: a three-piece dashed part and a reversed range
both contribute nothing; a dash-free part contributes its `toInt`. -/
theorem parseCpuList_robust_witness :
    parsePart ['1', '-', '2', '-', '3'] = [] ∧
    parsePart ['5', '-', '2'] = [] ∧
    parseCpuList ['0', ',', ',', '1']
      = ((splitOnChar ',' (qtTrim ['0', ',', ',', '1'])).map
          (fun p => if p = [] then [] else parsePart p)).flatten ∧
    parsePart ['7', '7'] = [qtToInt ['7', '7']] :=
  ⟨parseCpuList_robust.1 ['1', '-', '2', '-', '3'] (by decide) (by decide),
   parseCpuList_robust.2.1 ['5', '-', '2'] ['5'] ['2'] (by decide)
     (by decide) (by decide),
   parseCpuList_robust.2.2.1 ['0', ',', ',', '1'],
   parseCpuList_robust.2.2.2.1 ['7', '7'] (by decide)⟩


/- Helper lemmas about the scheduler model. -/

theorem setOp_eq (st : DbusHelperState) (b : Bool) :
    setOperationInProgress st b
      = ({ st with opInProgress := b },
         if st.opInProgress = b then [] else [SchedEvent.progressChanged b]) := by
  unfold setOperationInProgress
  split_ifs with h
  · rw [← h]
  · rfl

@[simp] theorem dispatchedOps_nil : dispatchedOps [] = [] := rfl

@[simp] theorem dispatchedOps_cons_dispatched (op : QueuedOperation)
    (l : List SchedEvent) :
    dispatchedOps (SchedEvent.opDispatched op :: l) = op :: dispatchedOps l :=
  rfl

@[simp] theorem dispatchedOps_cons_failed (e : String) (l : List SchedEvent) :
    dispatchedOps (SchedEvent.opFailed e :: l) = dispatchedOps l := rfl

@[simp] theorem dispatchedOps_cons_succeeded (l : List SchedEvent) :
    dispatchedOps (SchedEvent.opSucceeded :: l) = dispatchedOps l := rfl

@[simp] theorem dispatchedOps_cons_progress (b : Bool) (l : List SchedEvent) :
    dispatchedOps (SchedEvent.progressChanged b :: l) = dispatchedOps l := rfl

@[simp] theorem dispatchedOps_cons_batch (ok : Bool) (errs : List String)
    (l : List SchedEvent) :
    dispatchedOps (SchedEvent.batchCompleted ok errs :: l) = dispatchedOps l :=
  rfl

@[simp] theorem dispatchedOps_append (l1 l2 : List SchedEvent) :
    dispatchedOps (l1 ++ l2) = dispatchedOps l1 ++ dispatchedOps l2 := by
  induction l1 with
  | nil => rfl
  | cons e t ih => cases e <;> simp [ih]

/-- Core serialization lemma for `processNextOperation`: called with no
pending call, it leaves at most one call pending (none when it reports
idle), and the operations it dispatches are exactly the front of the
queue it consumed, in order. -/
theorem processNextAux_fifo (q : List QueuedOperation) :
    ∀ st : DbusHelperState, st.pending = [] → st.queue = q →
      (processNextAux q st).1.pending.length ≤ 1 ∧
      ((processNextAux q st).1.opInProgress = false →
        (processNextAux q st).1.pending = []) ∧
      q = dispatchedOps (processNextAux q st).2
            ++ (processNextAux q st).1.queue := by
  induction q with
  | nil =>
    intro st hp hq
    cases hio : st.opInProgress <;>
      by_cases hb : st.batchMode <;>
        simp [processNextAux, setOp_eq, hp, hq, hio, hb]
  | cons op rest ih =>
    intro st hp hq
    by_cases hc : st.connected
    · cases hio : st.opInProgress <;>
        simp [processNextAux, setOp_eq, hp, hq, hio, hc]
    · have hc2 : st.connected = false := by simpa using hc
      have ih2 := ih
        { st with
          opInProgress := true, queue := rest, batchHadErrors := true,
          batchErrors := st.batchErrors ++ [op.description ++ ": " ++ notConnRaw] }
        (by simpa using hp) rfl
      rw [hc2] at ih2
      cases hio : st.opInProgress
      · simp only [processNextAux, setOp_eq, hio, hc2]
        simp only [Bool.false_eq_true, Bool.true_eq_false, if_false, reduceIte,
          List.nil_append, List.singleton_append, List.cons_append,
          List.append_assoc]
        refine ⟨ih2.1, ih2.2.1, ?_⟩
        simp only [dispatchedOps_append, dispatchedOps_cons_dispatched,
          dispatchedOps_cons_failed, dispatchedOps_cons_progress,
          dispatchedOps_nil, List.nil_append, List.cons_append,
          List.append_assoc]
        exact congrArg (op :: ·) ih2.2.2
      · simp only [processNextAux, setOp_eq, hio, hc2]
        simp only [Bool.false_eq_true, Bool.true_eq_false, if_false, reduceIte,
          List.nil_append, List.singleton_append, List.cons_append,
          List.append_assoc]
        refine ⟨ih2.1, ih2.2.1, ?_⟩
        simp only [dispatchedOps_append, dispatchedOps_cons_dispatched,
          dispatchedOps_cons_failed, dispatchedOps_cons_progress,
          dispatchedOps_nil, List.nil_append, List.cons_append,
          List.append_assoc]
        exact congrArg (op :: ·) ih2.2.2


theorem stepAction_fifo (st : DbusHelperState) (a : SchedAction)
    (hInv : SchedInv st) :
    SchedInv (stepAction st a).1 ∧
    st.queue ++ enqueuedOps [a]
      = dispatchedOps (stepAction st a).2 ++ (stepAction st a).1.queue := by
  obtain ⟨hlen, hpe⟩ := hInv
  cases a with
  | enqueue op =>
    by_cases hio : st.opInProgress
    · simp [stepAction, queueOperation, hio, SchedInv, enqueuedOps, hlen, hpe]
    · have hio0 : st.opInProgress = false := by simpa using hio
      have hp : st.pending = [] := hpe hio0
      by_cases hbm : st.batchMode
      · simp [stepAction, queueOperation, hio0, hbm, SchedInv, enqueuedOps,
          hlen, hp, hpe]
      · have hbm0 : st.batchMode = false := by simpa using hbm
        have h1 := processNextAux_fifo (st.queue ++ [op])
          { st with queue := st.queue ++ [op] } (by simpa using hp) rfl
        rw [hio0, hbm0] at h1
        simp only [stepAction, queueOperation, hio0, hbm0, Bool.not_false,
          Bool.and_true, Bool.and_self, if_true, processNextOperation,
          reduceIte, enqueuedOps, SchedInv]
        exact ⟨⟨h1.1, h1.2.1⟩, h1.2.2⟩
  | beginB =>
    refine ⟨⟨?_, ?_⟩, ?_⟩
    · simpa [stepAction, beginBatch] using hlen
    · intro h
      have h2 := hpe (by simpa [stepAction, beginBatch] using h)
      simpa [stepAction, beginBatch] using h2
    · simp [stepAction, beginBatch, enqueuedOps]
  | endB =>
    by_cases hio : st.opInProgress
    · simp [stepAction, endBatch, hio, SchedInv, enqueuedOps, hlen, hpe]
    · have hio0 : st.opInProgress = false := by simpa using hio
      have hp : st.pending = [] := hpe hio0
      by_cases hqe : st.queue.isEmpty
      · simp [stepAction, endBatch, hio0, hqe, SchedInv, enqueuedOps, hlen,
          hp, hpe]
      · have hqe0 : st.queue.isEmpty = false := by simpa using hqe
        have h1 := processNextAux_fifo st.queue st hp rfl
        simp only [stepAction, endBatch, hio0, hqe0, Bool.not_false,
          Bool.false_and, Bool.and_false, if_true, reduceIte,
          processNextOperation, enqueuedOps, SchedInv]
        exact ⟨⟨h1.1, h1.2.1⟩, by simpa using h1.2.2⟩
  | complete o =>
    cases hpd : st.pending with
    | nil =>
      simp [stepAction, onAsyncCallFinished, hpd, SchedInv, enqueuedOps,
        hlen, hpe]
    | cons op restP =>
      have hrest : restP = [] := by
        rw [hpd] at hlen
        cases restP with
        | nil => rfl
        | cons x xs => simp at hlen
      subst hrest
      cases ho : rawError o with
      | some e =>
        have h1 := processNextAux_fifo st.queue
          { st with
            pending := [], batchHadErrors := true,
            batchErrors := st.batchErrors ++ [op.description ++ ": " ++ e] }
          rfl rfl
        simp only [stepAction, onAsyncCallFinished, hpd, ho,
          processNextOperation, enqueuedOps, SchedInv]
        refine ⟨⟨h1.1, h1.2.1⟩, ?_⟩
        simpa using h1.2.2
      | none =>
        have h1 := processNextAux_fifo st.queue { st with pending := [] }
          rfl rfl
        simp only [stepAction, onAsyncCallFinished, hpd, ho,
          processNextOperation, enqueuedOps, SchedInv]
        refine ⟨⟨h1.1, h1.2.1⟩, ?_⟩
        simpa using h1.2.2


theorem enqueuedOps_cons (a : SchedAction) (rest : List SchedAction) :
    enqueuedOps (a :: rest) = enqueuedOps [a] ++ enqueuedOps rest := by
  cases a <;> simp [enqueuedOps]

/-- Invariant propagation over an arbitrary stimulus sequence. -/
theorem runActions_fifo (acts : List SchedAction) :
    ∀ st : DbusHelperState, SchedInv st →
      SchedInv (runActions st acts).1 ∧
      st.queue ++ enqueuedOps acts
        = dispatchedOps (runActions st acts).2
            ++ (runActions st acts).1.queue := by
  induction acts with
  | nil =>
    intro st h
    exact ⟨h, by simp [runActions, enqueuedOps]⟩
  | cons a rest ih =>
    intro st h
    have h1 := stepAction_fifo st a h
    have h2 := ih (stepAction st a).1 h1.1
    refine ⟨?_, ?_⟩
    · simpa [runActions] using h2.1
    · have hq : st.queue ++ enqueuedOps (a :: rest)
          = dispatchedOps (stepAction st a).2
              ++ (dispatchedOps (runActions (stepAction st a).1 rest).2
                  ++ (runActions (stepAction st a).1 rest).1.queue) := by
        rw [enqueuedOps_cons, ← List.append_assoc, h1.2, List.append_assoc,
          h2.2]
      simpa [runActions, List.append_assoc] using hq

/-- Claim C6: over every stimulus sequence, the scheduler keeps at most
one operation in flight, and the operations it has dispatched followed
by the still-queued ones are exactly the enqueued operations in order
(strict FIFO: no reordering, no coalescing). -/
theorem scheduler_serial_fifo (connected : Bool) (acts : List SchedAction) :
    (runActions (initState connected) acts).1.pending.length ≤ 1 ∧
    enqueuedOps acts
      = dispatchedOps (runActions (initState connected) acts).2
          ++ (runActions (initState connected) acts).1.queue := by
  have h := runActions_fifo acts (initState connected)
    ⟨by simp [initState], fun _ => by simp [initState]⟩
  exact ⟨h.1.1, by simpa [initState] using h.2⟩


theorem runActions_append (l1 l2 : List SchedAction) :
    ∀ st : DbusHelperState,
      runActions st (l1 ++ l2)
        = ((runActions (runActions st l1).1 l2).1,
           (runActions st l1).2 ++ (runActions (runActions st l1).1 l2).2) := by
  induction l1 with
  | nil => intro st; simp [runActions]
  | cons a t ih => intro st; simp [runActions, ih, List.append_assoc]

/-- While a batch is open, enqueuing only appends to the queue. -/
theorem runEnqueues (ops : List QueuedOperation) :
    ∀ st : DbusHelperState, st.batchMode = true →
      runActions st (ops.map SchedAction.enqueue)
        = ({ st with queue := st.queue ++ ops }, []) := by
  induction ops with
  | nil => intro st h; simp [runActions]
  | cons op t ih =>
    intro st h
    simp only [List.map_cons, runActions, stepAction, queueOperation, h,
      Bool.not_true, Bool.and_false, Bool.false_eq_true, if_false, reduceIte]
    rw [ih { st with queue := st.queue ++ [op], batchMode := true } rfl]
    simp [List.append_assoc]


/-- Draining a nonempty queue while disconnected: every operation is
dispatched and immediately fails, then the batch completes once. -/
theorem runDiscAux (q : List QueuedOperation) :
    ∀ (errs : List String) (had : Bool),
      processNextAux q
        { queue := q, pending := [], opInProgress := true, batchMode := true,
          batchErrors := errs, batchHadErrors := had, connected := false }
        = ({ queue := [], pending := [], opInProgress := false,
             batchMode := false, batchErrors := [], batchHadErrors := false,
             connected := false },
           discEvents q
             ++ [SchedEvent.progressChanged false,
                 SchedEvent.batchCompleted (!(had || !q.isEmpty))
                   (errs ++ q.map notConnErr)]) := by
  induction q with
  | nil =>
    intro errs had
    simp [processNextAux, setOp_eq, discEvents]
  | cons op rest ih =>
    intro errs had
    simp only [processNextAux, setOp_eq, reduceIte]
    rw [ih (errs ++ [op.description ++ ": " ++ notConnRaw]) true]
    simp [discEvents, notConnErr, List.append_assoc, List.isEmpty_cons]


/-- Draining while connected: each delivered completion records its
outcome and dispatches the next queued operation; when the last one
finishes the batch completes once with the accumulated failure list. -/
theorem runConn (q : List QueuedOperation) :
    ∀ (outcomes : List CallOutcome) (op : QueuedOperation)
      (errs : List String) (had : Bool),
      outcomes.length = q.length + 1 →
      runActions
        { queue := q, pending := [op], opInProgress := true, batchMode := true,
          batchErrors := errs, batchHadErrors := had, connected := true }
        (outcomes.map SchedAction.complete)
        = ({ queue := [], pending := [], opInProgress := false,
             batchMode := false, batchErrors := [], batchHadErrors := false,
             connected := true },
           connEvents (op :: q) outcomes
             ++ [SchedEvent.progressChanged false,
                 SchedEvent.batchCompleted
                   (!(had || !(errsOf (op :: q) outcomes).isEmpty))
                   (errs ++ errsOf (op :: q) outcomes)]) := by
  induction q with
  | nil =>
    intro outcomes op errs had hlen
    match outcomes, hlen with
    | [o], _ =>
      cases ho : rawError o with
      | some e =>
        simp [runActions, stepAction, onAsyncCallFinished, ho,
          processNextOperation, processNextAux, setOp_eq, connEvents,
          completionEvents, errsOf]
      | none =>
        simp [runActions, stepAction, onAsyncCallFinished, ho,
          processNextOperation, processNextAux, setOp_eq, connEvents,
          completionEvents, errsOf]
  | cons op2 rest ih =>
    intro outcomes op errs had hlen
    match outcomes, hlen with
    | o :: os, hlen =>
      have hlen2 : os.length = rest.length + 1 := by simpa using hlen
      cases ho : rawError o with
      | some e =>
        simp only [List.map_cons, runActions, stepAction, onAsyncCallFinished,
          ho, processNextOperation, processNextAux, setOp_eq, reduceIte]
        simp only [List.nil_append]
        rw [ih os op2 (errs ++ [op.description ++ ": " ++ e]) true hlen2]
        simp [connEvents, completionEvents, errsOf, ho, List.append_assoc]
      | none =>
        simp only [List.map_cons, runActions, stepAction, onAsyncCallFinished,
          ho, processNextOperation, processNextAux, setOp_eq, reduceIte]
        simp only [List.nil_append]
        rw [ih os op2 errs had hlen2]
        simp [connEvents, completionEvents, errsOf, ho, List.append_assoc]


theorem errsOf_length (l : List QueuedOperation) :
    ∀ os : List CallOutcome, os.length = l.length →
      (errsOf l os).length = os.countP isFailure := by
  induction l with
  | nil =>
    intro os h
    have : os = [] := List.length_eq_zero.mp (by simpa using h)
    subst this
    simp [errsOf]
  | cons op t ih =>
    intro os h
    match os, h with
    | o :: os2, h =>
      have h2 : os2.length = t.length := by simpa using h
      cases ho : rawError o <;>
        simp [errsOf, ho, List.countP_cons, isFailure, ih os2 h2]

@[simp] theorem countBatch_nil : countBatch [] = 0 := rfl

@[simp] theorem countCompletions_nil : countCompletions [] = 0 := rfl

theorem countBatch_append (l1 l2 : List SchedEvent) :
    countBatch (l1 ++ l2) = countBatch l1 + countBatch l2 :=
  List.countP_append _ _ _

theorem countCompletions_append (l1 l2 : List SchedEvent) :
    countCompletions (l1 ++ l2) = countCompletions l1 + countCompletions l2 :=
  List.countP_append _ _ _

theorem countBatch_cons (e : SchedEvent) (l : List SchedEvent) :
    countBatch (e :: l) = countBatch l + if isBatchEvent e then 1 else 0 :=
  List.countP_cons _ _ _

theorem countCompletions_cons (e : SchedEvent) (l : List SchedEvent) :
    countCompletions (e :: l)
      = countCompletions l + if isCompletionEvent e then 1 else 0 :=
  List.countP_cons _ _ _

theorem countBatch_connEvents (l : List QueuedOperation) :
    ∀ os : List CallOutcome, countBatch (connEvents l os) = 0 := by
  induction l with
  | nil => intro os; simp [connEvents]
  | cons op t ih =>
    intro os
    cases os with
    | nil => simp [connEvents]
    | cons o os2 =>
      cases t <;> cases ho : rawError o <;>
        simp [connEvents, completionEvents, ho, countBatch_append,
          countBatch_cons, isBatchEvent, ih os2]

theorem countCompletions_connEvents (l : List QueuedOperation) :
    ∀ os : List CallOutcome, os.length = l.length →
      countCompletions (connEvents l os) = l.length := by
  induction l with
  | nil => intro os h; simp [connEvents]
  | cons op t ih =>
    intro os h
    match os, h with
    | o :: os2, h =>
      have h2 : os2.length = t.length := by simpa using h
      cases t <;> cases ho : rawError o <;>
        simp [connEvents, completionEvents, ho, countCompletions_append,
          countCompletions_cons, isCompletionEvent, ih os2 h2]

theorem countBatch_discEvents (q : List QueuedOperation) :
    countBatch (discEvents q) = 0 := by
  induction q with
  | nil => simp [discEvents]
  | cons op t ih =>
    simp [discEvents, countBatch_cons, isBatchEvent, ih]

theorem countCompletions_discEvents (q : List QueuedOperation) :
    countCompletions (discEvents q) = q.length := by
  induction q with
  | nil => simp [discEvents]
  | cons op t ih =>
    simp [discEvents, countCompletions_cons, isCompletionEvent, ih]


theorem runActions_cons (st : DbusHelperState) (a : SchedAction)
    (l : List SchedAction) :
    runActions st (a :: l)
      = ((runActions (stepAction st a).1 l).1,
         (stepAction st a).2 ++ (runActions (stepAction st a).1 l).2) := rfl

/-- A connected batch run, end to end. -/
theorem runBatch_conn (op1 : QueuedOperation) (rest : List QueuedOperation)
    (outcomes : List CallOutcome) (hlen : outcomes.length = rest.length + 1) :
    runActions (initState true) (batchActions (op1 :: rest) outcomes)
      = ({ queue := [], pending := [], opInProgress := false,
           batchMode := false, batchErrors := [], batchHadErrors := false,
           connected := true },
         SchedEvent.progressChanged true :: SchedEvent.opDispatched op1 ::
           (connEvents (op1 :: rest) outcomes
             ++ [SchedEvent.progressChanged false,
                 SchedEvent.batchCompleted
                   ((errsOf (op1 :: rest) outcomes).isEmpty)
                   (errsOf (op1 :: rest) outcomes)])) := by
  have hEnq : runActions
      { queue := [], pending := [], opInProgress := false, batchMode := true,
        batchErrors := [], batchHadErrors := false, connected := true }
      (List.map SchedAction.enqueue (op1 :: rest))
      = ({ queue := op1 :: rest, pending := [], opInProgress := false,
           batchMode := true, batchErrors := [], batchHadErrors := false,
           connected := true }, []) := by
    simpa using runEnqueues (op1 :: rest) _ rfl
  have hConn := runConn rest outcomes op1 [] false hlen
  have h0 : stepAction (initState true) SchedAction.beginB
      = ({ queue := [], pending := [], opInProgress := false,
           batchMode := true, batchErrors := [], batchHadErrors := false,
           connected := true }, []) := rfl
  have h1 : stepAction
      { queue := op1 :: rest, pending := [], opInProgress := false,
        batchMode := true, batchErrors := [], batchHadErrors := false,
        connected := true } SchedAction.endB
      = ({ queue := rest, pending := [op1], opInProgress := true,
           batchMode := true, batchErrors := [], batchHadErrors := false,
           connected := true },
         [SchedEvent.progressChanged true, SchedEvent.opDispatched op1]) := rfl
  simp only [batchActions]
  rw [runActions_cons, h0, runActions_append, hEnq, runActions_cons, h1,
    hConn]
  simp


theorem runActions_nil (st : DbusHelperState) :
    runActions st [] = (st, []) := rfl

/-- A disconnected batch run, end to end: no completions are delivered
because no asynchronous call is ever issued. -/
theorem runBatch_disc (op1 : QueuedOperation) (rest : List QueuedOperation) :
    runActions (initState false) (batchActions (op1 :: rest) [])
      = ({ queue := [], pending := [], opInProgress := false,
           batchMode := false, batchErrors := [], batchHadErrors := false,
           connected := false },
         SchedEvent.progressChanged true :: SchedEvent.opDispatched op1 ::
           SchedEvent.opFailed notConnRaw ::
           (discEvents rest
             ++ [SchedEvent.progressChanged false,
                 SchedEvent.batchCompleted false
                   ((op1 :: rest).map notConnErr)])) := by
  have hEnq : runActions
      { queue := [], pending := [], opInProgress := false, batchMode := true,
        batchErrors := [], batchHadErrors := false, connected := false }
      (List.map SchedAction.enqueue (op1 :: rest))
      = ({ queue := op1 :: rest, pending := [], opInProgress := false,
           batchMode := true, batchErrors := [], batchHadErrors := false,
           connected := false }, []) := by
    simpa using runEnqueues (op1 :: rest) _ rfl
  have h0 : stepAction (initState false) SchedAction.beginB
      = ({ queue := [], pending := [], opInProgress := false,
           batchMode := true, batchErrors := [], batchHadErrors := false,
           connected := false }, []) := rfl
  have hDisc := runDiscAux rest [op1.description ++ ": " ++ notConnRaw] true
  have h1 : stepAction
      { queue := op1 :: rest, pending := [], opInProgress := false,
        batchMode := true, batchErrors := [], batchHadErrors := false,
        connected := false } SchedAction.endB
      = ((processNextAux rest
            { queue := rest, pending := [], opInProgress := true,
              batchMode := true,
              batchErrors := [op1.description ++ ": " ++ notConnRaw],
              batchHadErrors := true, connected := false }).1,
         [SchedEvent.progressChanged true, SchedEvent.opDispatched op1,
          SchedEvent.opFailed notConnRaw]
           ++ (processNextAux rest
                { queue := rest, pending := [], opInProgress := true,
                  batchMode := true,
                  batchErrors := [op1.description ++ ": " ++ notConnRaw],
                  batchHadErrors := true, connected := false }).2) := rfl
  simp only [batchActions]
  rw [runActions_cons, h0, runActions_append, hEnq, List.map_nil,
    runActions_cons, h1, hDisc, runActions_nil]
  simp [notConnErr]


/-- Claim C5: a batch of N ≥ 1 operations emits exactly one
`batchCompleted` event, as the last event after all N operations have
completed; `allSucceeded` is true iff no operation failed; the error
list has one entry per failed operation; and failures (transport
errors, non-zero result codes, or a disconnected endpoint) never stop
the remaining queued operations from being attempted. -/
theorem batch_completion_spec (connected : Bool)
    (ops : List QueuedOperation) (outcomes : List CallOutcome)
    (h1 : ops ≠ [])
    (h2 : outcomes.length = if connected then ops.length else 0) :
    ∃ pre : List SchedEvent,
      (runActions (initState connected) (batchActions ops outcomes)).2
        = pre ++ [SchedEvent.batchCompleted
                    (batchErrorList connected ops outcomes).isEmpty
                    (batchErrorList connected ops outcomes)] ∧
      countBatch pre = 0 ∧
      countCompletions pre = ops.length ∧
      (batchErrorList connected ops outcomes).length
        = failedCount connected ops outcomes ∧
      ((batchErrorList connected ops outcomes).isEmpty = true ↔
        failedCount connected ops outcomes = 0) := by
  match ops, h1 with
  | op1 :: rest, _ =>
    cases connected with
    | true =>
      have hlen : outcomes.length = rest.length + 1 := by simpa using h2
      have hlen2 : outcomes.length = (op1 :: rest).length := by
        simpa using hlen
      have hrun := runBatch_conn op1 rest outcomes hlen
      refine ⟨SchedEvent.progressChanged true :: SchedEvent.opDispatched op1
        :: (connEvents (op1 :: rest) outcomes
            ++ [SchedEvent.progressChanged false]), ?_, ?_, ?_, ?_, ?_⟩
      · rw [hrun]
        simp [batchErrorList]
      · simp [countBatch_cons, countBatch_append, countBatch_connEvents,
          isBatchEvent]
      · simp [countCompletions_cons, countCompletions_append,
          countCompletions_connEvents (op1 :: rest) outcomes hlen2,
          isCompletionEvent]
      · simp [batchErrorList, failedCount,
          errsOf_length (op1 :: rest) outcomes hlen2]
      · have hl := errsOf_length (op1 :: rest) outcomes hlen2
        simp only [batchErrorList, failedCount, if_true, reduceIte, ← hl]
        rw [List.isEmpty_iff, ← List.length_eq_zero]
    | false =>
      have ho : outcomes = [] := List.length_eq_zero.mp (by simpa using h2)
      subst ho
      have hrun := runBatch_disc op1 rest
      refine ⟨SchedEvent.progressChanged true :: SchedEvent.opDispatched op1
        :: SchedEvent.opFailed notConnRaw
        :: (discEvents rest ++ [SchedEvent.progressChanged false]),
        ?_, ?_, ?_, ?_, ?_⟩
      · rw [hrun]
        simp [batchErrorList]
      · simp [countBatch_cons, countBatch_append, countBatch_discEvents,
          isBatchEvent]
      · simp [countCompletions_cons, countCompletions_append,
          countCompletions_discEvents, isCompletionEvent]
      · simp [batchErrorList, failedCount]
      · simp [batchErrorList, failedCount]


/-- Witness for C5: a single-operation connected batch whose one call
completes with result code 0. -/
theorem batch_completion_spec_witness :
    ∃ pre : List SchedEvent,
      (runActions (initState true) (batchActions
          [{ method := "update_cpu_settings", args := [],
             description := "Set CPU 0 frequency" }]
          [CallOutcome.resultCode 0])).2
        = pre ++ [SchedEvent.batchCompleted
            (batchErrorList true
              [{ method := "update_cpu_settings", args := [],
                 description := "Set CPU 0 frequency" }]
              [CallOutcome.resultCode 0]).isEmpty
            (batchErrorList true
              [{ method := "update_cpu_settings", args := [],
                 description := "Set CPU 0 frequency" }]
              [CallOutcome.resultCode 0])] ∧
      countBatch pre = 0 ∧
      countCompletions pre = 1 ∧
      (batchErrorList true
        [{ method := "update_cpu_settings", args := [],
           description := "Set CPU 0 frequency" }]
        [CallOutcome.resultCode 0]).length
        = failedCount true
            [{ method := "update_cpu_settings", args := [],
               description := "Set CPU 0 frequency" }]
            [CallOutcome.resultCode 0] ∧
      ((batchErrorList true
          [{ method := "update_cpu_settings", args := [],
             description := "Set CPU 0 frequency" }]
          [CallOutcome.resultCode 0]).isEmpty = true ↔
        failedCount true
            [{ method := "update_cpu_settings", args := [],
               description := "Set CPU 0 frequency" }]
            [CallOutcome.resultCode 0] = 0) :=
  batch_completion_spec true
    [{ method := "update_cpu_settings", args := [],
       description := "Set CPU 0 frequency" }]
    [CallOutcome.resultCode 0] (by simp) (by simp)

end Cpupower
